import Mathlib

/-!
Verification development for the classification and deduplication engine of
a job-application e-mail tracker.  The repository contains two near-duplicate
implementations of this engine:

* `job_application_tracker.py` — the CLI variant;
* `streamlit_job_tracker_app.py` — the Streamlit variant.

This file gives a shallow embedding of the engine's pure core:

* the case-insensitive pattern matchers used by `classify_email`
  (the regular expressions used by the source are limited to
  case-insensitive literals, literal alternations `(a|b|c)`, and
  two-sided gap patterns `X.*Y` where `.` does not cross a newline);
* the classifiers `classify_email` of both files;
* the company / job-title derivation, the irrelevance filter, and the
  per-message aggregation upsert of `process_job_emails`, modelled as a
  fold over an association list (Python `dict` with insertion semantics);
* the body-text extraction `extract_text_from_email` over a MIME tree;
* the per-message scan loops of both files, including their different
  treatment of a message whose `Date` header fails to parse.

Timestamps are modelled as integers (`email.utils.parsedate_to_datetime`
results, compared with `<` / `>` only); calendar formatting via `strftime`
is abstracted to the timestamp itself.  Character-level operations
(`str.lower`, `str.title`, `\w`) are modelled over ASCII.
-/

/-- Lower-case a character sequence (models Python `str.lower` / `re.I`
normalisation on ASCII text). -/
def lowerL (l : List Char) : List Char :=
  l.map Char.toLower

/-- The test `occursIn needle hay` is true iff `needle` occurs contiguously inside
`hay` (models `re.search` of a literal, and Python's `in` on strings). -/
def occursIn (needle : List Char) : List Char → Bool
  | [] => needle.isEmpty
  | c :: rest => needle.isPrefixOf (c :: rest) || occursIn needle rest

/-- Here `gapSearch ps qs s` models `re.search` of `(p₁|…|pₘ).*(q₁|…|qₙ)` on `s`:
some `p` occurs, followed — after a gap containing no newline, since `.`
does not match `\n` — by some `q`. -/
def gapSearch (ps qs : List (List Char)) : List Char → Bool
  | [] => false
  | c :: rest =>
    (ps.any fun p =>
      p.isPrefixOf (c :: rest) &&
        qs.any fun q =>
          occursIn q (((c :: rest).drop p.length).takeWhile fun ch => ch ≠ '\n'))
      || gapSearch ps qs rest

/-- The shapes of regular expression used by the source: a plain literal, a
literal alternation `(a|b|c)`, or a two-sided gap `(..|..).*(..|..)`. -/
inductive Pat where
  | lit : String → Pat
  | alts : List String → Pat
  | gap : List String → List String → Pat
deriving DecidableEq, Repr

/-- Search (`re.search`) of a compiled case-insensitive pattern against an
already-lower-cased character sequence. -/
def searchPat : Pat → List Char → Bool
  | .lit w, s => occursIn (lowerL w.data) s
  | .alts ws, s => ws.any fun w => occursIn (lowerL w.data) s
  | .gap ps qs, s =>
    gapSearch (ps.map fun w => lowerL w.data) (qs.map fun w => lowerL w.data) s

/-- A pattern matches a message iff it matches the subject or the body
(both lower-cased here once, standing for `re.I`). -/
def patMatches (p : Pat) (subject body : List Char) : Bool :=
  searchPat p subject || searchPat p body

/-- The test the source applies to each pattern group:
`any(pat.search(subject) or pat.search(body) for pat in pats)`. -/
def groupMatches (pats : List Pat) (subject body : List Char) : Bool :=
  pats.any fun pat => patMatches pat subject body

/-- List `THANK_YOU_PATTERNS` of `job_application_tracker.py`. -/
def THANK_YOU_PATTERNS : List Pat :=
  [ .lit "thank you for applying",
    .lit "thank you for your application",
    .lit "we received your application",
    .lit "your application was sent to",
    .lit "you applied to" ]

/-- List `REJECTION_PATTERNS` of `job_application_tracker.py`. -/
def REJECTION_PATTERNS : List Pat :=
  [ .lit "we will not be moving forward",
    .lit "we have decided not to proceed",
    .lit "we regret to inform you",
    .lit "unfortunately",
    .lit "we reviewed your application",
    .lit "not a good fit",
    .lit "better match",
    .lit "better fit",
    .lit "decided to proceed with a shortlist",
    .lit "decided not to proceed",
    .lit "regret to inform",
    .lit "continue our search",
    .lit "moving forward with other candidates" ]

/-- List `INTERVIEW_PATTERNS` of `job_application_tracker.py`. -/
def INTERVIEW_PATTERNS : List Pat :=
  [ .gap ["schedule", "availability", "book", "invite"] ["interview"],
    .gap ["interview"] ["scheduled", "invite", "booking"],
    .lit "invitation to interview",
    .gap ["recruiter"] ["reach out"] ]

/-- List `INTERVIEW_FALSE_POSITIVES` (identical in both files); the second
entry is the character class `you['’]ll hear from us`. -/
def INTERVIEW_FALSE_POSITIVES : List Pat :=
  [ .lit "what happens next",
    .alts ["you\x27ll hear from us", "you’ll hear from us"],
    .lit "shortlisted candidates",
    .lit "you are not selected",
    .lit "plan for what might occur" ]

/-- Function `classify_email` of `job_application_tracker.py`: suppressors first,
then the Interview, Rejected and Application Sent groups in order,
returning on the first pattern matching the subject or the body. -/
def classify_email (subject body : String) : Option String :=
  let s := lowerL subject.data
  let b := lowerL body.data
  if groupMatches INTERVIEW_FALSE_POSITIVES s b then none
  else if groupMatches INTERVIEW_PATTERNS s b then some "Interview Requested"
  else if groupMatches REJECTION_PATTERNS s b then some "Rejected"
  else if groupMatches THANK_YOU_PATTERNS s b then some "Application Sent"
  else none

/-- Dictionary `STATUS_PATTERNS` of `streamlit_job_tracker_app.py`, in
insertion order. -/
def STATUS_PATTERNS : List (String × List Pat) :=
  [ ("Interview Requested",
      [ .gap ["schedule", "availability", "book", "invite"] ["interview"],
        .gap ["interview"] ["scheduled", "invite", "booking"],
        .lit "invitation to interview",
        .gap ["recruiter"] ["reach out"],
        .gap ["schedule", "set up", "arrange"] ["call", "meeting", "interview"],
        .gap ["phone", "video", "onsite"] ["interview"] ]),
    ("Rejected",
      [ .lit "we will not be moving forward",
        .lit "we have decided not to proceed",
        .lit "we regret to inform you",
        .lit "unfortunately",
        .lit "we reviewed your application",
        .lit "not a good fit",
        .lit "better match",
        .lit "better fit",
        .lit "decided to proceed with a shortlist",
        .lit "decided not to proceed",
        .lit "regret to inform",
        .lit "continue our search",
        .lit "moving forward with other candidates",
        .lit "not selected",
        .lit "cannot move forward",
        .lit "passed on your application" ]),
    ("Application Sent",
      [ .lit "thank you for applying",
        .lit "thank you for your application",
        .lit "we received your application",
        .lit "your application was sent to",
        .lit "you applied to",
        .gap ["application", "submission"] ["received", "submitted"],
        .alts ["thank you for your interest", "thank you for your submission"] ]) ]

/-- Function `classify_email` of `streamlit_job_tracker_app.py`: same suppressors,
then the `STATUS_PATTERNS` groups in dictionary order, returning the label
of the first group with a matching pattern. -/
def classify_email_app (subject body : String) : Option String :=
  let s := lowerL subject.data
  let b := lowerL body.data
  if groupMatches INTERVIEW_FALSE_POSITIVES s b then none
  else
    match STATUS_PATTERNS.find? (fun g => groupMatches g.2 s b) with
    | some g => some g.1
    | none => none

/-- The character class `[\w.-]` of the sender-domain regular expression
`@([\w.-]+)` (ASCII model of `\w`). -/
def isDomainChar (c : Char) : Bool :=
  c.isAlphanum || c == '_' || c == '.' || c == '-'

/-- First capture of `re.findall(r'@([\w.-]+)', sender)`: scanning left to
right, the maximal nonempty run of domain characters following a `@`; a
`@` followed by no domain character is not a match and scanning resumes
after it. -/
def findAtRun : List Char → Option (List Char)
  | [] => none
  | c :: rest =>
    if c = '@' then
      if rest.takeWhile isDomainChar = [] then findAtRun rest
      else some (rest.takeWhile isDomainChar)
    else findAtRun rest

/-- One step of Python `str.title` (ASCII model): a letter is upper-cased
when the previous character was not a letter, lower-cased otherwise; other
characters pass through and reset the word state. -/
def pyTitleGo : Bool → List Char → List Char
  | _, [] => []
  | prevCased, c :: rest =>
    if c.isAlpha then
      (if prevCased then c.toLower else c.toUpper) :: pyTitleGo true rest
    else
      c :: pyTitleGo false rest

/-- Python `str.title` (ASCII model). -/
def pyTitle (l : List Char) : List Char :=
  pyTitleGo false l

/-- The company derivation of `process_job_emails` (identical in both
files): `company[0].split(".")[0].title()` on the first `@([\w.-]+)`
capture, falling back to `"Unknown"` when the regular expression finds
nothing. -/
def extractCompany (sender : String) : String :=
  match findAtRun sender.data with
  | some run => String.mk (pyTitle (run.takeWhile fun c => c != '.'))
  | none => "Unknown"

/-- List `EXCLUDED_KEYWORDS` (identical in both files). -/
def EXCLUDED_KEYWORDS : List String :=
  [ "practice starts", "lyrics", "trees in trust", "league registration",
    "burnout prevention", "unable to cancel", "spotlight on", "serenade",
    "rear of the property", "order confirmation", "unsubscribe" ]

/-- Set `EXCLUDED_COMPANIES` (identical in both files; a Python set, used only
for membership tests). -/
def EXCLUDED_COMPANIES : List String :=
  [ "gmail", "chapelridge", "prayvine", "squaretrade", "amazon", "ottawa",
    "substack", "rallyandtap", "79246730" ]

/-- Filter `is_irrelevant_email` (identical in both files).  The `sender`
argument is unused, as in the source. -/
def is_irrelevant_email (subject sender company : String) : Bool :=
  let lower_subject := lowerL subject.data
  let lower_company := String.mk (lowerL company.data)
  EXCLUDED_KEYWORDS.any (fun keyword => occursIn keyword.data lower_subject)
    || EXCLUDED_COMPANIES.contains lower_company

/-- Python `str.split` on a nonempty separator, fuelled by the string
length (each step consumes at least one character): non-overlapping
occurrences are consumed left to right. -/
def splitFuel (sep : List Char) : Nat → List Char → List (List Char)
  | _, [] => [[]]
  | 0, s => [s]
  | fuel + 1, c :: rest =>
    if sep.isPrefixOf (c :: rest) then
      [] :: splitFuel sep fuel ((c :: rest).drop sep.length)
    else
      match splitFuel sep fuel rest with
      | [] => [[c]]
      | h :: t => (c :: h) :: t

/-- Python `s.split(sep)` for a nonempty `sep`. -/
def splitOnL (sep s : List Char) : List (List Char) :=
  splitFuel sep s.length s

/-- The last element of a nonempty list (Python's `[-1]`), defaulting to
the empty string for the unreachable empty case (`split` never returns an
empty list). -/
def lastD : List (List Char) → List Char
  | [] => []
  | [x] => x
  | _ :: rest => lastD rest

/-- The literal job-title separator `" at "`. -/
def sepAt : List Char :=
  " at ".data

/-- The job-title derivation of `process_job_emails` (identical in both
files): `subject.split(" at ")[-1] if " at " in subject else subject`. -/
def jobTitleOf (subject : String) : String :=
  if occursIn sepAt subject.data then
    String.mk (lastD (splitOnL sepAt subject.data))
  else subject

/-- Python `str.strip` (whitespace from both ends). -/
def pyStrip (s : String) : String :=
  String.mk
    (((s.data.dropWhile Char.isWhitespace).reverse.dropWhile Char.isWhitespace).reverse)

/-- A fetched message after header decoding and date parsing, as consumed
by the aggregation step. -/
structure Msg where
  subject : String
  sender : String
  body : String
  date : Int
deriving DecidableEq, Repr

/-- The aggregated application record (`applications[key]` in the source).
`date_applied` stores the timestamp whose `strftime("%Y-%m-%d")` rendering
the source writes out. -/
structure AppRec where
  company : String
  job_title : String
  status : String
  date_applied : Int
  last_update : Int
  subject : String
deriving DecidableEq, Repr

/-- The identity key `(company, job_title)`; the job title here is the raw
(untrimmed) derived title, exactly as the source builds the key. -/
abbrev AppKey := String × String

/-- The aggregation map, modelling the Python `dict` as an association
list in insertion order. -/
abbrev AppMap := List (AppKey × AppRec)

/-- Lookup: `key in applications` / `applications[key]` on the modelled dict. -/
def lookupKey (k : AppKey) : AppMap → Option AppRec
  | [] => none
  | (k', r) :: rest => if k' = k then some r else lookupKey k rest

/-- Assignment `applications[key] = record`: replace in place when the key is
present, append otherwise (Python dict assignment). -/
def setKey (k : AppKey) (r : AppRec) : AppMap → AppMap
  | [] => [(k, r)]
  | (k', r') :: rest =>
    if k' = k then (k, r) :: rest else (k', r') :: setKey k r rest

/-- The identity key derived from a message. -/
def keyOf (m : Msg) : AppKey :=
  (extractCompany m.sender, jobTitleOf m.subject)

/-- The record the source builds from a message and its classification. -/
def recOf (m : Msg) (status : String) : AppRec :=
  { company := extractCompany m.sender
    job_title := pyStrip (jobTitleOf m.subject)
    status := status
    date_applied := m.date
    last_update := m.date
    subject := m.subject }

/-- The per-message aggregation step shared by both files (the loop body
of `process_job_emails` from classification to the upsert), parametrised
by the classifier since the two files use different pattern sets. -/
def ingestWith (classify : String → String → Option String) (m : Msg)
    (apps : AppMap) : AppMap :=
  match classify m.subject m.body with
  | none => apps
  | some status =>
    if is_irrelevant_email m.subject m.sender (extractCompany m.sender) then apps
    else
      match lookupKey (keyOf m) apps with
      | none => setKey (keyOf m) (recOf m status) apps
      | some r =>
        if r.last_update < m.date then setKey (keyOf m) (recOf m status) apps
        else apps

/-- Folding the aggregation step over a batch of date-parsed, in-window
messages, starting from the empty dict. -/
def aggregate (classify : String → String → Option String)
    (batch : List Msg) : AppMap :=
  batch.foldl (fun apps m => ingestWith classify m apps) []

/-- A fetched raw message before date parsing: `dateHeader = none` models
a `Date` header on which `email.utils.parsedate_to_datetime` fails. -/
structure RawMsg where
  subject : String
  sender : String
  body : String
  dateHeader : Option Int
deriving DecidableEq, Repr

/-- A raw message together with its parsed date. -/
def toMsg (m : RawMsg) (d : Int) : Msg :=
  { subject := m.subject, sender := m.sender, body := m.body, date := d }

/-- The per-message scan loop of `process_job_emails` in
`job_application_tracker.py`.  Date parsing is not guarded there: on an
unparseable `Date` header the exception escapes to the outer handler,
which returns the applications aggregated so far — the remaining messages
are never processed.  A message older than `cutoff` (`three_months_ago`)
sets `stop_processing` and breaks out of the scan. -/
def process_job_emails (cutoff : Int) : List RawMsg → AppMap → AppMap
  | [], apps => apps
  | m :: rest, apps =>
    match m.dateHeader with
    | none => apps
    | some d =>
      if d < cutoff then apps
      else process_job_emails cutoff rest (ingestWith classify_email (toMsg m d) apps)

/-- The per-message scan loop of `process_job_emails` in
`streamlit_job_tracker_app.py`: date parsing is wrapped in `try/except`,
so a message with an unparseable `Date` header is logged and skipped and
the scan continues. -/
def process_job_emails_app (cutoff : Int) : List RawMsg → AppMap → AppMap
  | [], apps => apps
  | m :: rest, apps =>
    match m.dateHeader with
    | none => process_job_emails_app cutoff rest apps
    | some d =>
      if d < cutoff then apps
      else
        process_job_emails_app cutoff rest
          (ingestWith classify_email_app (toMsg m d) apps)

/-- The substitution removing HTML tags — the fallback used
when the optional structured parser is unavailable; fuelled by the string
length (each step consumes at least one character). -/
def stripTagsFuel : Nat → List Char → List Char
  | _, [] => []
  | 0, s => s
  | fuel + 1, c :: rest =>
    if c = '<' then
      match rest.takeWhile (fun ch => ch ≠ '>') with
      | [] => c :: stripTagsFuel fuel rest
      | seg =>
        if (rest.drop seg.length).head? = some '>' then
          stripTagsFuel fuel (rest.drop (seg.length + 1))
        else c :: stripTagsFuel fuel rest
    else c :: stripTagsFuel fuel rest

/-- Tag stripping on strings. -/
def stripTags (html : String) : String :=
  String.mk (stripTagsFuel html.data.length html.data)

/-- A parsed MIME message: a leaf part carries its content type and its
payload after best-effort byte decoding (`decode(errors='ignore')`, which
never fails), and a multipart container carries its `multipart/*` content
type and its child parts. -/
inductive Mime where
  | part (contentType : String) (payload : String)
  | multi (contentType : String) (parts : List Mime)

/-- Accessor `msg.get_content_type()`. -/
def getContentType : Mime → String
  | .part ct _ => ct
  | .multi ct _ => ct

/-- Accessor `msg.is_multipart()`. -/
def isMultipartMsg : Mime → Bool
  | .part _ _ => false
  | .multi _ _ => true

/-- The decoded payload of a leaf part
(`part.get_payload(decode=True).decode(errors='ignore')`). -/
def getPayload : Mime → String
  | .part _ p => p
  | .multi _ _ => ""

mutual

/-- Traversal `msg.walk()`: the message itself followed by the preorder traversal of
its parts. -/
def walk : Mime → List Mime
  | .part ct p => [Mime.part ct p]
  | .multi ct parts => Mime.multi ct parts :: walkList parts

/-- Preorder traversal of a list of sibling parts. -/
def walkList : List Mime → List Mime
  | [] => []
  | m :: rest => walk m ++ walkList rest

end

/-- Function `extract_text_from_email` (identical in both files): for a multipart
message, the first `text/plain` part wins, else the first `text/html`
part stripped of markup, else the empty string; for a single-part message,
the payload (stripped when HTML).  The structured-parser branch
(BeautifulSoup) is an optional external dependency; the regex
tag-stripper fallback is modelled. -/
def extract_text_from_email (msg : Mime) : String :=
  match msg with
  | .multi _ _ =>
    match (walk msg).find? (fun part => getContentType part == "text/plain") with
    | some part => getPayload part
    | none =>
      match (walk msg).find? (fun part => getContentType part == "text/html") with
      | some part => stripTags (getPayload part)
      | none => ""
  | .part ct payload =>
    if ct == "text/html" then stripTags payload else payload

/-- A message survives classification and the irrelevance filter, so the
upsert runs for it. -/
def contributes (classify : String → String → Option String) (m : Msg) : Bool :=
  (classify m.subject m.body).isSome &&
    !(is_irrelevant_email m.subject m.sender (extractCompany m.sender))

/-- The record a contributing message would store. -/
def recWith (classify : String → String → Option String) (m : Msg) : AppRec :=
  recOf m ((classify m.subject m.body).getD "")

/-- The per-key effect of the upsert: create when absent, replace when the
incoming timestamp is strictly greater. -/
def upsertOpt (cur : Option AppRec) (r : AppRec) : Option AppRec :=
  match cur with
  | none => some r
  | some r0 => if r0.last_update < r.last_update then some r else some r0

/-- A classifiable, non-excluded sample message used to instantiate
universally quantified claims. -/
def msgA : Msg :=
  { subject := "thank you for applying at Acme", sender := "a@acme.com",
    body := "", date := 5 }

/-- Same key and timestamp as `msgA`, different subject and status text:
the aggregation's tie-breaking keeps whichever came first. -/
def msgB : Msg :=
  { subject := "we received your application at Acme", sender := "a@acme.com",
    body := "", date := 5 }

/-- Same key as `msgA` but a strictly later timestamp. -/
def msgC : Msg :=
  { subject := "we received your application at Acme", sender := "a@acme.com",
    body := "", date := 7 }

/-- Same message text as `msgA` except for a trailing space in the
subject: the derived untrimmed job title `"Acme "` differs from `"Acme"`,
so the dict keeps two records, but both store the trimmed title `"Acme"`. -/
def msgD : Msg :=
  { subject := "thank you for applying at Acme ", sender := "a@acme.com",
    body := "", date := 6 }

/-- The spec's description of the classifier: suppressors first, then the
label of the FIRST group — in the fixed order Interview Requested,
Rejected, Application Sent — with any pattern matching the subject or the
body. -/
def classifySpec (subject body : String) : Option String :=
  let s := lowerL subject.data
  let b := lowerL body.data
  if groupMatches INTERVIEW_FALSE_POSITIVES s b then none
  else
    match
      [("Interview Requested", INTERVIEW_PATTERNS),
       ("Rejected", REJECTION_PATTERNS),
       ("Application Sent", THANK_YOU_PATTERNS)].find?
        (fun g => groupMatches g.2 s b) with
    | some g => some g.1
    | none => none

/-- A raw message whose `Date` header cannot be parsed. -/
def rawBad : RawMsg :=
  { subject := "thank you for applying at Acme", sender := "a@acme.com",
    body := "", dateHeader := none }

/-- A classifiable raw message with a parseable date inside the window. -/
def rawGood : RawMsg :=
  { subject := "thank you for applying at Acme", sender := "a@acme.com",
    body := "", dateHeader := some 5 }

/-- The text pieces following each `@` of the sender, each up to the next
`@` — the amended claim's reading of "the sender's domain candidates". -/
def domainSegments : List Char → List (List Char)
  | [] => []
  | c :: rest =>
    if c = '@' then
      rest.takeWhile (fun ch => ch ≠ '@') :: domainSegments rest
    else domainSegments rest

/-- Is a domain segment usable: nonempty and starting with a domain
character (the regular expression needs at least one `[\w.-]` after `@`). -/
def segPred : List Char → Bool
  | [] => false
  | c :: _ => isDomainChar c

/-- The amended claim's description of the company derivation: `"Unknown"`
when no `@` is immediately followed by a word/dot/hyphen character;
otherwise the Python-title-cased portion before the first `.` of the
maximal word/dot/hyphen run after the first such `@` (a portion that may
be empty). -/
def companySpec (sender : String) : String :=
  match (domainSegments sender.data).find? segPred with
  | none => "Unknown"
  | some seg =>
    String.mk (pyTitle ((seg.takeWhile isDomainChar).takeWhile fun c => c != '.'))

theorem lookup_setKey_self (k : AppKey) (r : AppRec) :
    ∀ apps : AppMap, lookupKey k (setKey k r apps) = some r := by
  intro apps
  induction apps with
  | nil => simp [setKey, lookupKey]
  | cons hd tl ih =>
    obtain ⟨k', r'⟩ := hd
    by_cases h : k' = k
    · simp [setKey, h, lookupKey]
    · simp [setKey, h, lookupKey, ih]

theorem lookup_setKey_ne (k k' : AppKey) (r : AppRec) (h : k' ≠ k) :
    ∀ apps : AppMap, lookupKey k (setKey k' r apps) = lookupKey k apps := by
  intro apps
  induction apps with
  | nil => simp [setKey, lookupKey, h]
  | cons hd tl ih =>
    obtain ⟨k'', r''⟩ := hd
    by_cases h' : k'' = k'
    · subst h'
      simp [setKey, lookupKey, h]
    · simp [setKey, lookupKey, h', ih]

theorem last_update_recWith (classify : String → String → Option String)
    (m : Msg) : (recWith classify m).last_update = m.date := rfl

theorem lookup_ingest (classify : String → String → Option String) (m : Msg)
    (apps : AppMap) (k : AppKey) :
    lookupKey k (ingestWith classify m apps) =
      if contributes classify m = true ∧ keyOf m = k then
        upsertOpt (lookupKey k apps) (recWith classify m)
      else lookupKey k apps := by
  unfold ingestWith
  cases hc : classify m.subject m.body with
  | none => simp [contributes, hc]
  | some status =>
    have hrec : recWith classify m = recOf m status := by
      simp [recWith, hc]
    by_cases hirr : is_irrelevant_email m.subject m.sender (extractCompany m.sender)
    · simp [contributes, hc, hirr]
    · have hcontr : contributes classify m = true := by
        simp [contributes, hc, hirr]
      simp only [hirr, if_false, hcontr, true_and, hrec]
      by_cases hk : keyOf m = k
      · subst hk
        cases hl : lookupKey (keyOf m) apps with
        | none => simp [hl, upsertOpt, lookup_setKey_self]
        | some r0 =>
          by_cases hlt : r0.last_update < m.date
          · simp [hl, hlt, upsertOpt, lookup_setKey_self, recOf]
          · simp [hl, hlt, upsertOpt, recOf]
      · have hne : keyOf m ≠ k := hk
        cases hl : lookupKey (keyOf m) apps with
        | none => simp [hk, lookup_setKey_ne _ _ _ hne]
        | some r0 =>
          by_cases hlt : r0.last_update < m.date <;>
            simp [hk, hlt, lookup_setKey_ne _ _ _ hne]

theorem lookup_aggregate_from (classify : String → String → Option String)
    (k : AppKey) :
    ∀ (batch : List Msg) (apps : AppMap),
      lookupKey k (batch.foldl (fun a m => ingestWith classify m a) apps) =
        (batch.filter fun m =>
            contributes classify m && decide (keyOf m = k)).foldl
          (fun cur m => upsertOpt cur (recWith classify m)) (lookupKey k apps) := by
  intro batch
  induction batch with
  | nil => intro apps; rfl
  | cons m rest ih =>
    intro apps
    simp only [List.foldl_cons, List.filter_cons]
    rw [ih, lookup_ingest]
    by_cases h : contributes classify m = true ∧ keyOf m = k
    · have : (contributes classify m && decide (keyOf m = k)) = true := by
        simp [h.1, h.2]
      simp [h, this]
    · have hfalse : (contributes classify m && decide (keyOf m = k)) = false := by
        cases hc : contributes classify m with
        | false => simp
        | true =>
          have hk : ¬ keyOf m = k := fun hkk => h ⟨hc, hkk⟩
          simp [hk]
      simp [h, hfalse]

theorem foldl_upsert_some (classify : String → String → Option String) :
    ∀ (ms : List Msg) (r0 : AppRec),
      ∃ r, ms.foldl (fun cur m => upsertOpt cur (recWith classify m))
            (some r0) = some r ∧
        (r = r0 ∨ ∃ m ∈ ms, r = recWith classify m) ∧
        r0.last_update ≤ r.last_update ∧
        ∀ m ∈ ms, m.date ≤ r.last_update := by
  intro ms
  induction ms with
  | nil =>
    intro r0
    exact ⟨r0, rfl, Or.inl rfl, le_refl _, by simp⟩
  | cons m rest ih =>
    intro r0
    by_cases hlt : r0.last_update < m.date
    · obtain ⟨r, hfold, hsrc, hle, hbound⟩ := ih (recWith classify m)
      refine ⟨r, ?_, ?_, ?_, ?_⟩
      · simpa [upsertOpt, last_update_recWith, hlt] using hfold
      · rcases hsrc with h | ⟨m', hm', hr⟩
        · exact Or.inr ⟨m, List.mem_cons_self m rest, h⟩
        · exact Or.inr ⟨m', List.mem_cons_of_mem m hm', hr⟩
      · calc r0.last_update ≤ m.date := le_of_lt hlt
          _ = (recWith classify m).last_update := (last_update_recWith _ m).symm
          _ ≤ r.last_update := hle
      · intro m' hm'
        rcases List.mem_cons.mp hm' with h | h
        · subst h
          calc m'.date = (recWith classify m').last_update :=
                (last_update_recWith _ m').symm
            _ ≤ r.last_update := hle
        · exact hbound m' h
    · obtain ⟨r, hfold, hsrc, hle, hbound⟩ := ih r0
      refine ⟨r, ?_, ?_, hle, ?_⟩
      · simpa [upsertOpt, last_update_recWith, hlt] using hfold
      · rcases hsrc with h | ⟨m', hm', hr⟩
        · exact Or.inl h
        · exact Or.inr ⟨m', List.mem_cons_of_mem m hm', hr⟩
      · intro m' hm'
        rcases List.mem_cons.mp hm' with h | h
        · subst h
          exact le_trans (le_of_not_lt hlt) hle
        · exact hbound m' h

theorem foldl_upsert_none (classify : String → String → Option String)
    (ms : List Msg) (hne : ms ≠ []) :
    ∃ r, ms.foldl (fun cur m => upsertOpt cur (recWith classify m)) none = some r ∧
      (∃ m ∈ ms, r = recWith classify m) ∧
      ∀ m ∈ ms, m.date ≤ r.last_update := by
  cases ms with
  | nil => exact absurd rfl hne
  | cons m rest =>
    obtain ⟨r, hfold, hsrc, hle, hbound⟩ :=
      foldl_upsert_some classify rest (recWith classify m)
    refine ⟨r, by simpa [upsertOpt] using hfold, ?_, ?_⟩
    · rcases hsrc with h | ⟨m', hm', hr⟩
      · exact ⟨m, List.mem_cons_self m rest, h⟩
      · exact ⟨m', List.mem_cons_of_mem m hm', hr⟩
    · intro m' hm'
      rcases List.mem_cons.mp hm' with h | h
      · subst h
        simpa [last_update_recWith] using hle
      · exact hbound m' h

/-- C2: for every identity key and every finite batch pushed through the
aggregation upsert (in any order, since the batch list is arbitrary), the
final record stored for that key has `last_update` equal to the maximum
timestamp among the classified, non-excluded messages deriving that key —
it is the timestamp of one such message and an upper bound of all of them —
and a stored record's `last_update` never decreases at an ingestion step. -/
theorem claim_C2_last_update_is_max :
    (∀ (batch : List Msg) (k : AppKey),
        (∃ m ∈ batch, contributes classify_email m = true ∧ keyOf m = k) →
        ∃ rec, lookupKey k (aggregate classify_email batch) = some rec ∧
          (∃ m ∈ batch, contributes classify_email m = true ∧ keyOf m = k ∧
            rec.last_update = m.date) ∧
          (∀ m ∈ batch, contributes classify_email m = true → keyOf m = k →
            m.date ≤ rec.last_update))
    ∧ (∀ (apps : AppMap) (m : Msg) (k : AppKey) (r r' : AppRec),
        lookupKey k apps = some r →
        lookupKey k (ingestWith classify_email m apps) = some r' →
        r.last_update ≤ r'.last_update) := by
  constructor
  · intro batch k hex
    obtain ⟨m0, hm0, hc0, hk0⟩ := hex
    have hmem : m0 ∈ batch.filter
        (fun m => contributes classify_email m && decide (keyOf m = k)) :=
      List.mem_filter.mpr ⟨hm0, by simp [hc0, hk0]⟩
    have hne : batch.filter
        (fun m => contributes classify_email m && decide (keyOf m = k)) ≠ [] :=
      List.ne_nil_of_mem hmem
    obtain ⟨r, hfold, ⟨m1, hm1, hr1⟩, hbound⟩ :=
      foldl_upsert_none classify_email _ hne
    refine ⟨r, ?_, ?_, ?_⟩
    · unfold aggregate
      rw [lookup_aggregate_from]
      simpa [lookupKey] using hfold
    · obtain ⟨hm1b, hm1p⟩ := List.mem_filter.mp hm1
      have hm1p' : contributes classify_email m1 = true ∧ keyOf m1 = k := by
        simpa using hm1p
      exact ⟨m1, hm1b, hm1p'.1, hm1p'.2, by rw [hr1]; exact last_update_recWith _ _⟩
    · intro m hm hc hk
      exact hbound m (List.mem_filter.mpr ⟨hm, by simp [hc, hk]⟩)
  · intro apps m k r r' hr hr'
    rw [lookup_ingest, hr] at hr'
    by_cases h : contributes classify_email m = true ∧ keyOf m = k
    · rw [if_pos h] at hr'
      simp only [upsertOpt, last_update_recWith] at hr'
      by_cases hlt : r.last_update < m.date
      · rw [if_pos hlt] at hr'
        injection hr' with hr''
        rw [← hr'', last_update_recWith]
        exact le_of_lt hlt
      · rw [if_neg hlt] at hr'
        injection hr' with hr''
        exact le_of_eq (congrArg AppRec.last_update hr'')
    · rw [if_neg h] at hr'
      injection hr' with hr''
      exact le_of_eq (congrArg AppRec.last_update hr'')

/-- Witness for C2 at the concrete batch `[msgA]`. -/
theorem claim_C2_witness :
    ∃ rec, lookupKey ("Acme", "Acme") (aggregate classify_email [msgA]) = some rec ∧
      (∃ m ∈ [msgA], contributes classify_email m = true ∧
        keyOf m = ("Acme", "Acme") ∧ rec.last_update = m.date) ∧
      (∀ m ∈ [msgA], contributes classify_email m = true →
        keyOf m = ("Acme", "Acme") → m.date ≤ rec.last_update) :=
  claim_C2_last_update_is_max.1 [msgA] ("Acme", "Acme")
    ⟨msgA, by decide, by decide, by decide⟩

theorem upsertOpt_comm (r1 r2 : AppRec)
    (h : r1 = r2 ∨ r1.last_update ≠ r2.last_update) (cur : Option AppRec) :
    upsertOpt (upsertOpt cur r1) r2 = upsertOpt (upsertOpt cur r2) r1 := by
  rcases h with rfl | hne
  · rfl
  · cases cur with
    | none =>
      by_cases h12 : r1.last_update < r2.last_update
      · simp [upsertOpt, h12, (show ¬ r2.last_update < r1.last_update by omega)]
      · simp [upsertOpt, h12, (show r2.last_update < r1.last_update by omega)]
    | some r0 =>
      by_cases h01 : r0.last_update < r1.last_update <;>
        by_cases h02 : r0.last_update < r2.last_update <;>
        by_cases h12 : r1.last_update < r2.last_update
      · simp [upsertOpt, h01, h02, h12,
          (show ¬ r2.last_update < r1.last_update by omega)]
      · simp [upsertOpt, h01, h02, h12,
          (show r2.last_update < r1.last_update by omega)]
      · exact absurd h12 (by omega)
      · simp [upsertOpt, h01, h02, h12]
      · simp [upsertOpt, h01, h02, h12,
          (show ¬ r2.last_update < r1.last_update by omega)]
      · exact absurd (show r1.last_update < r2.last_update by omega) h12
      · simp [upsertOpt, h01, h02, h12]
      · simp [upsertOpt, h01, h02]

theorem foldl_upsert_perm (classify : String → String → Option String) :
    ∀ {ms1 ms2 : List Msg}, ms1.Perm ms2 →
      (∀ m1 ∈ ms1, ∀ m2 ∈ ms1,
        recWith classify m1 = recWith classify m2 ∨ m1.date ≠ m2.date) →
      ∀ cur,
        ms1.foldl (fun cur m => upsertOpt cur (recWith classify m)) cur =
          ms2.foldl (fun cur m => upsertOpt cur (recWith classify m)) cur := by
  intro ms1 ms2 hperm
  induction hperm with
  | nil => intro _ cur; rfl
  | cons x h ih =>
    intro hp cur
    simp only [List.foldl_cons]
    exact ih
      (fun m1 h1 m2 h2 =>
        hp m1 (List.mem_cons_of_mem x h1) m2 (List.mem_cons_of_mem x h2)) _
  | swap x y l =>
    intro hp cur
    simp only [List.foldl_cons]
    have hc : recWith classify y = recWith classify x ∨
        (recWith classify y).last_update ≠ (recWith classify x).last_update := by
      rcases hp y (by simp) x (by simp) with h | h
      · exact Or.inl h
      · right
        rw [last_update_recWith, last_update_recWith]
        exact h
    rw [upsertOpt_comm (recWith classify y) (recWith classify x) hc cur]
  | trans h12 h23 ih1 ih2 =>
    intro hp cur
    rw [ih1 hp cur]
    exact ih2
      (fun m1 h1 m2 h2 =>
        hp m1 (h12.mem_iff.mpr h1) m2 (h12.mem_iff.mpr h2)) cur

/-- C3 (amended): the aggregation is order-independent whenever no two
distinct messages share both the identity key and the timestamp (the
source keeps the incumbent on a timestamp tie, so such a pair is
order-sensitive); and the stored record is always taken whole — status,
dates and subject together — from a single maximum-timestamp contributing
message. -/
theorem claim_C3_amended_order_independence :
    (∀ (b1 b2 : List Msg), b1.Perm b2 →
        (∀ m1 ∈ b1, ∀ m2 ∈ b1, keyOf m1 = keyOf m2 → m1.date = m2.date →
          m1 = m2) →
        ∀ k, lookupKey k (aggregate classify_email b1) =
          lookupKey k (aggregate classify_email b2))
    ∧ (∀ (batch : List Msg) (k : AppKey) (rec : AppRec),
        lookupKey k (aggregate classify_email batch) = some rec →
        ∃ m ∈ batch, contributes classify_email m = true ∧ keyOf m = k ∧
          rec = recWith classify_email m ∧
          ∀ m' ∈ batch, contributes classify_email m' = true → keyOf m' = k →
            m'.date ≤ m.date) := by
  constructor
  · intro b1 b2 hperm hinj k
    unfold aggregate
    rw [lookup_aggregate_from, lookup_aggregate_from]
    refine foldl_upsert_perm classify_email
      (hperm.filter (fun m => contributes classify_email m && decide (keyOf m = k)))
      ?_ _
    intro m1 h1 m2 h2
    obtain ⟨h1b, h1p⟩ := List.mem_filter.mp h1
    obtain ⟨h2b, h2p⟩ := List.mem_filter.mp h2
    have hk1 : keyOf m1 = k := by simpa using (Bool.and_elim_right h1p)
    have hk2 : keyOf m2 = k := by simpa using (Bool.and_elim_right h2p)
    by_cases hd : m1.date = m2.date
    · left
      rw [hinj m1 h1b m2 h2b (hk1.trans hk2.symm) hd]
    · exact Or.inr hd
  · intro batch k rec hrec
    unfold aggregate at hrec
    rw [lookup_aggregate_from] at hrec
    cases hms : batch.filter
        (fun m => contributes classify_email m && decide (keyOf m = k)) with
    | nil => rw [hms] at hrec; exact absurd hrec (by simp [lookupKey])
    | cons m0 rest =>
      have hne : batch.filter
          (fun m => contributes classify_email m && decide (keyOf m = k)) ≠ [] := by
        rw [hms]; exact List.cons_ne_nil _ _
      obtain ⟨r, hfold, ⟨m1, hm1, hr1⟩, hbound⟩ :=
        foldl_upsert_none classify_email _ hne
      have hrr : rec = r := by
        have : lookupKey k ([] : AppMap) = none := rfl
        rw [this] at hrec
        rw [hrec] at hfold
        exact Option.some_injective _ hfold
      obtain ⟨hm1b, hm1p⟩ := List.mem_filter.mp hm1
      have hm1p' : contributes classify_email m1 = true ∧ keyOf m1 = k := by
        simpa using hm1p
      refine ⟨m1, hm1b, hm1p'.1, hm1p'.2, by rw [hrr, hr1], ?_⟩
      intro m' hm' hc' hk'
      have := hbound m' (List.mem_filter.mpr ⟨hm', by simp [hc', hk']⟩)
      rw [hr1, last_update_recWith] at this
      exact this

/-- Counterexample to C3 as stated: `msgA` and `msgB` are classified,
non-excluded, share the identity key `("Acme", "Acme")` and the timestamp
`5`, yet the two ingestion orders leave different records (different
`subject`), so permuting the batch changes the final state. -/
theorem claim_C3_counterexample :
    lookupKey ("Acme", "Acme") (aggregate classify_email [msgA, msgB]) ≠
      lookupKey ("Acme", "Acme") (aggregate classify_email [msgB, msgA]) := by
  decide

/-- Witness for C3 (amended) on a concrete two-message batch with distinct
timestamps. -/
theorem claim_C3_witness :
    lookupKey ("Acme", "Acme") (aggregate classify_email [msgA, msgC]) =
      lookupKey ("Acme", "Acme") (aggregate classify_email [msgC, msgA]) :=
  claim_C3_amended_order_independence.1 [msgA, msgC] [msgC, msgA]
    (List.Perm.swap msgC msgA []) (by decide) ("Acme", "Acme")

theorem ingestWith_idem (classify : String → String → Option String) (m : Msg)
    (apps : AppMap) :
    ingestWith classify m (ingestWith classify m apps) =
      ingestWith classify m apps := by
  cases hc : classify m.subject m.body with
  | none => simp [ingestWith, hc]
  | some status =>
    cases hirr : is_irrelevant_email m.subject m.sender (extractCompany m.sender) with
    | true => simp [ingestWith, hc, hirr]
    | false =>
      cases hl : lookupKey (keyOf m) apps with
      | none =>
        simp only [ingestWith, hc, hirr, Bool.false_eq_true, if_false, hl]
        rw [lookup_setKey_self]
        simp [recOf]
      | some r0 =>
        by_cases hlt : r0.last_update < m.date
        · simp only [ingestWith, hc, hirr, Bool.false_eq_true, if_false, hl,
            if_pos hlt]
          rw [lookup_setKey_self]
          simp [recOf]
        · simp only [ingestWith, hc, hirr, Bool.false_eq_true, if_false, hl,
            if_neg hlt]

/-- C4: ingesting the same message twice — in either implementation's
classifier — leaves exactly the aggregate state of ingesting it once: the
second pass sees an equal (not strictly greater) timestamp and replaces
nothing. -/
theorem claim_C4_ingest_idempotent :
    ∀ (apps : AppMap) (m : Msg),
      ingestWith classify_email m (ingestWith classify_email m apps) =
        ingestWith classify_email m apps ∧
      ingestWith classify_email_app m (ingestWith classify_email_app m apps) =
        ingestWith classify_email_app m apps :=
  fun apps m =>
    ⟨ingestWith_idem classify_email m apps,
     ingestWith_idem classify_email_app m apps⟩

theorem mem_keys_setKey (k k' : AppKey) (r : AppRec) :
    ∀ apps : AppMap, k' ∈ (setKey k r apps).map Prod.fst →
      k' = k ∨ k' ∈ apps.map Prod.fst := by
  intro apps
  induction apps with
  | nil => simp [setKey]
  | cons hd tl ih =>
    obtain ⟨k'', r''⟩ := hd
    intro hmem
    simp only [setKey] at hmem
    split at hmem
    case isTrue h =>
      simp only [List.map_cons, List.mem_cons] at hmem ⊢
      tauto
    case isFalse h =>
      simp only [List.map_cons, List.mem_cons] at hmem ⊢
      rcases hmem with h' | h'
      · tauto
      · rcases ih h' with h'' | h'' <;> tauto

theorem nodup_keys_setKey (k : AppKey) (r : AppRec) :
    ∀ apps : AppMap, (apps.map Prod.fst).Nodup →
      ((setKey k r apps).map Prod.fst).Nodup := by
  intro apps
  induction apps with
  | nil => intro _; simp [setKey]
  | cons hd tl ih =>
    obtain ⟨k'', r''⟩ := hd
    intro hnd
    simp only [List.map_cons, List.nodup_cons] at hnd
    simp only [setKey]
    split
    case isTrue h =>
      subst h
      simp only [List.map_cons, List.nodup_cons]
      exact hnd
    case isFalse h =>
      simp only [List.map_cons, List.nodup_cons]
      refine ⟨fun hmem => ?_, ih hnd.2⟩
      rcases mem_keys_setKey k k'' r tl hmem with h' | h'
      · exact h h'
      · exact hnd.1 h'

theorem nodup_keys_ingest (classify : String → String → Option String)
    (m : Msg) (apps : AppMap) (h : (apps.map Prod.fst).Nodup) :
    ((ingestWith classify m apps).map Prod.fst).Nodup := by
  cases hc : classify m.subject m.body with
  | none => simpa [ingestWith, hc] using h
  | some status =>
    cases hirr : is_irrelevant_email m.subject m.sender (extractCompany m.sender) with
    | true => simpa [ingestWith, hc, hirr] using h
    | false =>
      cases hl : lookupKey (keyOf m) apps with
      | none =>
        simp only [ingestWith, hc, hirr, Bool.false_eq_true, if_false, hl]
        exact nodup_keys_setKey _ _ apps h
      | some r0 =>
        by_cases hlt : r0.last_update < m.date
        · simp only [ingestWith, hc, hirr, Bool.false_eq_true, if_false, hl,
            if_pos hlt]
          exact nodup_keys_setKey _ _ apps h
        · simpa [ingestWith, hc, hirr, hl, if_neg hlt] using h

/-- C7 (amended): the aggregation map holds at most one record per
identity key, where the key's job-title component is the raw (untrimmed)
derived title, exactly as the source builds the dict key; the stored
`job_title` field is the trimmed form, so two records may share the
trimmed title. -/
theorem claim_C7_amended_unique_keys :
    ∀ batch : List Msg,
      ((aggregate classify_email batch).map Prod.fst).Nodup := by
  have hgen : ∀ (b : List Msg) (apps : AppMap), (apps.map Prod.fst).Nodup →
      ((b.foldl (fun a m => ingestWith classify_email m a) apps).map
        Prod.fst).Nodup := by
    intro b
    induction b with
    | nil => intro apps h; exact h
    | cons m rest ih =>
      intro apps h
      exact ih _ (nodup_keys_ingest classify_email m apps h)
  intro batch
  exact hgen batch [] (by simp)

/-- Counterexample to C7 as stated: after ingesting `msgA` and `msgD` the
final map holds two records whose `(company, trimmed job title)` pairs
coincide — the dict key uses the untrimmed title, not the trimmed one. -/
theorem claim_C7_counterexample :
    ¬ ((aggregate classify_email [msgA, msgD]).map
        (fun e => (e.2.company, e.2.job_title))).Nodup := by
  decide

/-- Unfolding `find?` on a three-element list into an if-chain. -/
theorem find?_three {α : Type} (p : α → Bool) (a b c : α) :
    [a, b, c].find? p =
      if p a then some a
      else if p b then some b
      else if p c then some c
      else none := by
  by_cases ha : p a = true
  · rw [List.find?_cons_of_pos _ ha, if_pos ha]
  · rw [List.find?_cons_of_neg _ ha, if_neg ha]
    by_cases hb : p b = true
    · rw [List.find?_cons_of_pos _ hb, if_pos hb]
    · rw [List.find?_cons_of_neg _ hb, if_neg hb]
      by_cases hc : p c = true
      · rw [List.find?_cons_of_pos _ hc, if_pos hc]
      · rw [List.find?_cons_of_neg _ hc, if_neg hc, List.find?_nil]

/-- C1: `classify_email` returns no label whenever a suppressor matches,
and otherwise the label of the first matching group in the fixed order; in
particular a message matching an interview pattern and a rejection pattern
with no suppressor is classified Interview Requested. -/
theorem claim_C1_classifier_precedence :
    ∀ subject body : String,
      classify_email subject body = classifySpec subject body ∧
      (groupMatches INTERVIEW_FALSE_POSITIVES (lowerL subject.data)
          (lowerL body.data) = false →
        groupMatches INTERVIEW_PATTERNS (lowerL subject.data)
          (lowerL body.data) = true →
        groupMatches REJECTION_PATTERNS (lowerL subject.data)
          (lowerL body.data) = true →
        classify_email subject body = some "Interview Requested") := by
  intro subject body
  constructor
  · simp only [classify_email, classifySpec, find?_three]
    cases hsup : groupMatches INTERVIEW_FALSE_POSITIVES (lowerL subject.data)
        (lowerL body.data) with
    | true => rfl
    | false =>
      cases hint : groupMatches INTERVIEW_PATTERNS (lowerL subject.data)
          (lowerL body.data) with
      | true => simp [hint]
      | false =>
        cases hrej : groupMatches REJECTION_PATTERNS (lowerL subject.data)
            (lowerL body.data) with
        | true => simp [hint, hrej]
        | false =>
          cases hty : groupMatches THANK_YOU_PATTERNS (lowerL subject.data)
              (lowerL body.data) with
          | true => simp [hint, hrej, hty]
          | false => simp [hint, hrej, hty]
  · intro hsup hint _
    simp [classify_email, hsup, hint]

/-- Witness for C1 at a message matching both an interview pattern
(`schedule.*interview`) and a rejection pattern (`unfortunately`) and no
suppressor. -/
theorem claim_C1_witness :
    classify_email "unfortunately, please schedule an interview" "" =
      some "Interview Requested" :=
  (claim_C1_classifier_precedence "unfortunately, please schedule an interview"
      "").2 (by decide) (by decide) (by decide)

/-- The Streamlit pattern groups each begin with the CLI file's group and
append extra patterns. -/
theorem STATUS_PATTERNS_decomp :
    STATUS_PATTERNS =
      [("Interview Requested", INTERVIEW_PATTERNS ++
          [.gap ["schedule", "set up", "arrange"] ["call", "meeting", "interview"],
           .gap ["phone", "video", "onsite"] ["interview"]]),
       ("Rejected", REJECTION_PATTERNS ++
          [.lit "not selected", .lit "cannot move forward",
           .lit "passed on your application"]),
       ("Application Sent", THANK_YOU_PATTERNS ++
          [.gap ["application", "submission"] ["received", "submitted"],
           .alts ["thank you for your interest",
                  "thank you for your submission"]])] := rfl

theorem groupMatches_append (l1 l2 : List Pat) (s b : List Char) :
    groupMatches (l1 ++ l2) s b = (groupMatches l1 s b || groupMatches l2 s b) := by
  simp [groupMatches, List.any_append]

/-- C5 (amended): the two classifiers share the suppressor list, and each
CLI pattern group is an initial segment of the corresponding Streamlit
group, so any message the Streamlit classifier leaves unlabelled is also
unlabelled by the CLI classifier; the interview-mode phrases
(phone/video/onsite + interview) are recognised only by the Streamlit
classifier. -/
theorem claim_C5_amended_app_extends_cli :
    (∀ subject body : String, classify_email_app subject body = none →
        classify_email subject body = none) ∧
      classify_email_app "video interview" "" = some "Interview Requested" ∧
      classify_email "video interview" "" = none := by
  refine ⟨?_, by decide, by decide⟩
  intro subject body happ
  simp only [classify_email_app, STATUS_PATTERNS_decomp, find?_three] at happ
  simp only [classify_email]
  cases hsup : groupMatches INTERVIEW_FALSE_POSITIVES (lowerL subject.data)
      (lowerL body.data) with
  | true => rfl
  | false =>
    rw [hsup] at happ
    simp only [Bool.false_eq_true, if_false] at happ
    cases hint : groupMatches (INTERVIEW_PATTERNS ++
        [.gap ["schedule", "set up", "arrange"] ["call", "meeting", "interview"],
         .gap ["phone", "video", "onsite"] ["interview"]])
        (lowerL subject.data) (lowerL body.data) with
    | true => rw [hint] at happ; simp at happ
    | false =>
      rw [hint] at happ
      cases hrej : groupMatches (REJECTION_PATTERNS ++
          [.lit "not selected", .lit "cannot move forward",
           .lit "passed on your application"])
          (lowerL subject.data) (lowerL body.data) with
      | true => rw [hrej] at happ; simp at happ
      | false =>
        rw [hrej] at happ
        cases hty : groupMatches (THANK_YOU_PATTERNS ++
            [.gap ["application", "submission"] ["received", "submitted"],
             .alts ["thank you for your interest",
                    "thank you for your submission"]])
            (lowerL subject.data) (lowerL body.data) with
        | true => rw [hty] at happ; simp at happ
        | false =>
          rw [groupMatches_append] at hint hrej hty
          have hint' : groupMatches INTERVIEW_PATTERNS (lowerL subject.data)
              (lowerL body.data) = false := by
            cases h : groupMatches INTERVIEW_PATTERNS (lowerL subject.data)
                (lowerL body.data)
            · rfl
            · rw [h] at hint; simp at hint
          have hrej' : groupMatches REJECTION_PATTERNS (lowerL subject.data)
              (lowerL body.data) = false := by
            cases h : groupMatches REJECTION_PATTERNS (lowerL subject.data)
                (lowerL body.data)
            · rfl
            · rw [h] at hrej; simp at hrej
          have hty' : groupMatches THANK_YOU_PATTERNS (lowerL subject.data)
              (lowerL body.data) = false := by
            cases h : groupMatches THANK_YOU_PATTERNS (lowerL subject.data)
                (lowerL body.data)
            · rfl
            · rw [h] at hty; simp at hty
          simp [hsup, hint', hrej', hty']

/-- Witness for C5 (amended) at a message the Streamlit classifier leaves
unlabelled. -/
theorem claim_C5_witness : classify_email "hello" "" = none :=
  claim_C5_amended_app_extends_cli.1 "hello" "" (by decide)

/-- Counterexample to C5 as stated: on subject `"phone interview"` the two
classifiers disagree — the Streamlit file's extra interview-mode pattern
`(phone|video|onsite).*interview` has no counterpart in the CLI file. -/
theorem claim_C5_counterexample :
    classify_email "phone interview" "" = none ∧
      classify_email_app "phone interview" "" = some "Interview Requested" := by
  decide

/-- C6 evaluated at the failing input: in `job_application_tracker.py` an
unparseable `Date` header aborts the scan — the batch `[rawBad, rawGood]`
produces an empty aggregate although `[rawGood]` alone produces a record —
while the Streamlit loop skips the malformed message and aggregates the
rest, as the claim describes. -/
theorem claim_C6_unparseable_date_aborts_cli_scan :
    process_job_emails 0 [rawBad, rawGood] [] = [] ∧
      process_job_emails 0 [rawGood] [] ≠ [] ∧
      process_job_emails_app 0 [rawBad, rawGood] [] =
        process_job_emails_app 0 [rawGood] [] ∧
      process_job_emails_app 0 [rawGood] [] ≠ [] := by
  decide

/-- Counterexample to C8 as stated: the sender `"foo@.com"` has a domain
match (the run `".com"` after `@` — dots are in the captured class), and
the portion before the first `.` is empty, so the derived company is the
empty string, not a non-empty string. -/
theorem claim_C8_counterexample : extractCompany "foo@.com" = "" := by decide

theorem isDomainChar_ne_at (c : Char) (h : isDomainChar c = true) : c ≠ '@' := by
  intro hc
  subst hc
  exact absurd h (by decide)

theorem takeWhile_takeWhile_of_imp {p q : Char → Bool}
    (h : ∀ c, p c = true → q c = true) :
    ∀ l : List Char, (l.takeWhile q).takeWhile p = l.takeWhile p := by
  intro l
  induction l with
  | nil => rfl
  | cons c rest ih =>
    by_cases hp : p c = true
    · have hq := h c hp
      simp [List.takeWhile_cons, hp, hq, ih]
    · by_cases hq : q c = true <;> simp [List.takeWhile_cons, hp, hq]

theorem findAtRun_at (rest : List Char) :
    findAtRun ('@' :: rest) =
      if rest.takeWhile isDomainChar = [] then findAtRun rest
      else some (rest.takeWhile isDomainChar) := by
  simp [findAtRun]

theorem findAtRun_not_at (c : Char) (rest : List Char) (h : c ≠ '@') :
    findAtRun (c :: rest) = findAtRun rest := by
  simp [findAtRun, h]

theorem domainSegments_at (rest : List Char) :
    domainSegments ('@' :: rest) =
      rest.takeWhile (fun ch => decide (ch ≠ '@')) :: domainSegments rest := by
  simp [domainSegments]

theorem domainSegments_not_at (c : Char) (rest : List Char) (h : c ≠ '@') :
    domainSegments (c :: rest) = domainSegments rest := by
  simp [domainSegments, h]

theorem findAtRun_eq (l : List Char) :
    findAtRun l =
      ((domainSegments l).find? segPred).map
        (fun seg => seg.takeWhile isDomainChar) := by
  induction l with
  | nil => rfl
  | cons c rest ih =>
    by_cases hc : c = '@'
    · subst hc
      rw [findAtRun_at, domainSegments_at]
      by_cases hrun : rest.takeWhile isDomainChar = []
      · rw [if_pos hrun]
        have hpred : ¬ segPred (rest.takeWhile fun ch => decide (ch ≠ '@')) = true := by
          cases rest with
          | nil => simp [segPred]
          | cons d rest' =>
            by_cases hdat : d = '@'
            · subst hdat
              simp [List.takeWhile_cons, segPred]
            · by_cases hd : isDomainChar d = true
              · simp [List.takeWhile_cons, hd] at hrun
              · simp only [Bool.not_eq_true] at hd
                simp [List.takeWhile_cons, hdat, segPred, hd]
        rw [List.find?_cons_of_neg _ hpred]
        exact ih
      · rw [if_neg hrun]
        cases rest with
        | nil => simp at hrun
        | cons d rest' =>
          by_cases hd : isDomainChar d = true
          · have hdat : d ≠ '@' := isDomainChar_ne_at d hd
            have hseg : (d :: rest').takeWhile (fun ch => decide (ch ≠ '@')) =
                d :: rest'.takeWhile (fun ch => decide (ch ≠ '@')) := by
              simp [List.takeWhile_cons, hdat]
            rw [hseg, List.find?_cons_of_pos _ (by simp [segPred, hd])]
            have hkey : (rest'.takeWhile fun ch =>
                  decide (ch ≠ '@')).takeWhile isDomainChar =
                rest'.takeWhile isDomainChar :=
              takeWhile_takeWhile_of_imp
                (fun ch hch => by simpa using isDomainChar_ne_at ch hch) rest'
            simp only [decide_not] at hkey
            simp [List.takeWhile_cons, hd, hkey]
          · simp only [Bool.not_eq_true] at hd
            simp [List.takeWhile_cons, hd] at hrun
    · rw [findAtRun_not_at c rest hc, domainSegments_not_at c rest hc]
      exact ih

/-- C8 (amended): for every sender the derived company is `"Unknown"` when
no `@` is immediately followed by a word/dot/hyphen character, and
otherwise the Python-title-cased portion before the first `.` of the
maximal word/dot/hyphen run after the first such `@` — a portion that can
be empty, so the company is not always non-empty. -/
theorem claim_C8_amended_company_derivation :
    ∀ sender : String, extractCompany sender = companySpec sender := by
  intro sender
  unfold extractCompany companySpec
  rw [findAtRun_eq]
  cases hf : (domainSegments sender.data).find? segPred with
  | none => rfl
  | some seg => rfl

/-- C9: body-text extraction is total — the embedding is a total Lean
function on arbitrary MIME trees — and a multipart message none of whose
walked parts is `text/plain` or `text/html` yields the empty string. -/
theorem claim_C9_extract_total_empty_body :
    ∀ msg : Mime, isMultipartMsg msg = true →
      (∀ p ∈ walk msg, getContentType p ≠ "text/plain") →
      (∀ p ∈ walk msg, getContentType p ≠ "text/html") →
      extract_text_from_email msg = "" := by
  intro msg hmul hplain hhtml
  cases msg with
  | part ct payload => simp [isMultipartMsg] at hmul
  | multi ct parts =>
    have h1 : (walk (Mime.multi ct parts)).find?
        (fun part => getContentType part == "text/plain") = none := by
      rw [List.find?_eq_none]
      intro p hp
      simpa using hplain p hp
    have h2 : (walk (Mime.multi ct parts)).find?
        (fun part => getContentType part == "text/html") = none := by
      rw [List.find?_eq_none]
      intro p hp
      simpa using hhtml p hp
    simp [extract_text_from_email, h1, h2]

/-- Witness for C9 at a multipart message with a single image part. -/
theorem claim_C9_witness :
    extract_text_from_email
      (Mime.multi "multipart/mixed" [Mime.part "image/png" "xyz"]) = "" :=
  claim_C9_extract_total_empty_body
    (Mime.multi "multipart/mixed" [Mime.part "image/png" "xyz"]) rfl
    (by
      intro p hp
      simp only [walk, walkList, List.append_nil, List.nil_append,
        List.mem_cons, List.not_mem_nil, or_false] at hp
      rcases hp with rfl | rfl <;> decide)
    (by
      intro p hp
      simp only [walk, walkList, List.append_nil, List.nil_append,
        List.mem_cons, List.not_mem_nil, or_false] at hp
      rcases hp with rfl | rfl <;> decide)

theorem lastD_cons_of_ne_nil (a : List Char) {l : List (List Char)}
    (h : l ≠ []) : lastD (a :: l) = lastD l := by
  cases l with
  | nil => exact absurd rfl h
  | cons x xs => rfl

theorem splitFuel_ne_nil (sep : List Char) :
    ∀ (fuel : Nat) (s : List Char), splitFuel sep fuel s ≠ [] := by
  intro fuel
  induction fuel with
  | zero => intro s; cases s <;> simp [splitFuel]
  | succ f ih =>
    intro s
    cases s with
    | nil => simp [splitFuel]
    | cons c rest =>
      by_cases hpre : sep.isPrefixOf (c :: rest) = true
      · simp [splitFuel, hpre]
      · cases hsr : splitFuel sep f rest with
        | nil => exact absurd hsr (ih rest)
        | cons h t => simp [splitFuel, hpre, hsr]

theorem splitFuel_singleton (sep : List Char) :
    ∀ (fuel : Nat) (s x : List Char), splitFuel sep fuel s = [x] → x = s := by
  intro fuel
  induction fuel with
  | zero =>
    intro s x h
    cases s with
    | nil =>
      simp only [splitFuel] at h
      injection h with h1 _
      exact h1.symm
    | cons c rest =>
      simp only [splitFuel] at h
      injection h with h1 _
      exact h1.symm
  | succ f ih =>
    intro s x h
    cases s with
    | nil =>
      simp only [splitFuel] at h
      injection h with h1 _
      exact h1.symm
    | cons c rest =>
      by_cases hpre : sep.isPrefixOf (c :: rest) = true
      · simp only [splitFuel, hpre, if_true] at h
        injection h with _ h2
        exact absurd h2 (splitFuel_ne_nil sep f _)
      · cases hsr : splitFuel sep f rest with
        | nil => exact absurd hsr (splitFuel_ne_nil sep f rest)
        | cons hh tt =>
          simp only [splitFuel, hsr, if_neg hpre] at h
          injection h with h1 h2
          subst h2
          have hhr : hh = rest := ih rest hh hsr
          rw [← h1, hhr]

theorem occursIn_cons (needle : List Char) (c : Char) (rest : List Char) :
    occursIn needle (c :: rest) =
      (needle.isPrefixOf (c :: rest) || occursIn needle rest) := rfl

theorem splitFuel_lastD_no_occurrence (sep : List Char) (hsep : sep ≠ []) :
    ∀ (fuel : Nat) (s : List Char), s.length ≤ fuel →
      occursIn sep (lastD (splitFuel sep fuel s)) = false := by
  intro fuel
  induction fuel with
  | zero =>
    intro s hlen
    have : s = [] := List.eq_nil_of_length_eq_zero (Nat.le_zero.mp hlen)
    subst this
    cases sep with
    | nil => exact absurd rfl hsep
    | cons c cs => simp [splitFuel, lastD, occursIn]
  | succ f ih =>
    intro s hlen
    cases s with
    | nil =>
      cases sep with
      | nil => exact absurd rfl hsep
      | cons c cs => simp [splitFuel, lastD, occursIn]
    | cons c rest =>
      have hlen' : rest.length ≤ f := by
        simpa [List.length_cons, Nat.succ_le_succ_iff] using hlen
      by_cases hpre : sep.isPrefixOf (c :: rest) = true
      · simp only [splitFuel, hpre, if_true]
        have hlen'' : ((c :: rest).drop sep.length).length ≤ f := by
          have hs1 : 1 ≤ sep.length := by
            cases sep with
            | nil => exact absurd rfl hsep
            | cons a b => simp
          rw [List.length_drop]
          simp only [List.length_cons]
          omega
        rw [lastD_cons_of_ne_nil _ (splitFuel_ne_nil sep f _)]
        exact ih _ hlen''
      · cases hsr : splitFuel sep f rest with
        | nil => exact absurd hsr (splitFuel_ne_nil sep f rest)
        | cons hh tt =>
          simp only [splitFuel, hsr, if_neg hpre]
          cases tt with
          | nil =>
            have hhr : hh = rest := splitFuel_singleton sep f rest hh hsr
            have hrest : occursIn sep (lastD (splitFuel sep f rest)) = false :=
              ih rest hlen'
            rw [hsr] at hrest
            simp only [lastD] at hrest
            rw [hhr] at hrest
            simp [lastD, occursIn_cons, hhr, hpre, hrest]
          | cons t1 ts =>
            have hrest := ih rest hlen'
            rw [hsr] at hrest
            rw [lastD_cons_of_ne_nil _ (by simp)]
            rw [lastD_cons_of_ne_nil _ (by simp)] at hrest
            exact hrest

/-- Counterexample to C10 as stated: in `"x at at y"` the separator
`" at "` occurs twice (at offsets 1 and 4, overlapping); the substring
after the LAST occurrence is `"y"` (the decomposition below exhibits that
occurrence, and `" at "` does not occur in `"y"`), yet the derived job
title is `"at y"`, because `split` consumes non-overlapping occurrences
left to right. -/
theorem claim_C10_counterexample :
    String.mk ("x at".data ++ sepAt ++ "y".data) = "x at at y" ∧
      occursIn sepAt "y".data = false ∧
      jobTitleOf "x at at y" = "at y" ∧ ("at y" : String) ≠ "y" := by
  decide

/-- C10 (amended): the derived job title is the final field of the
left-to-right non-overlapping split on `" at "` — a segment in which
`" at "` never occurs again — e.g. `"Engineer at Foo at Bar"` yields
`"Bar"` (the text after the last occurrence), while the overlapping
`"x at at y"` yields `"at y"`. -/
theorem claim_C10_amended_job_title :
    (∀ subject : String, occursIn sepAt subject.data = true →
        occursIn sepAt (jobTitleOf subject).data = false) ∧
      jobTitleOf "Engineer at Foo at Bar" = "Bar" ∧
      jobTitleOf "x at at y" = "at y" := by
  refine ⟨?_, by decide, by decide⟩
  intro subject h
  unfold jobTitleOf splitOnL
  rw [if_pos h]
  exact splitFuel_lastD_no_occurrence sepAt (by decide) subject.data.length
    subject.data (le_refl _)

/-- Witness for C10 (amended) at the subject `"a at b"`. -/
theorem claim_C10_witness :
    occursIn sepAt (jobTitleOf "a at b").data = false :=
  claim_C10_amended_job_title.1 "a at b" (by decide)
